import Mathlib

/-!
Verification of the falling-word arcade engine (`src/components/WordRainGame.tsx`).

Strings are embedded as lists of Unicode code points (`List Nat`); rational
numbers stand in for JavaScript numbers (the claims checked here do not depend
on floating-point rounding).  Randomness (candidate pick, horizontal placement,
speed jitter, particle velocities, spawn ids, frame clock) is passed in as
explicit parameters, so every run of the engine corresponds to one choice of
those parameters.
-/

namespace WordRain

/-- Code points of a string literal, the embedding of JS strings. -/
def str (s : String) : List Nat := s.toList.map Char.toNat

/-- Modelled JS builtin: the canonical (NFD) decomposition table for the Latin
letters that occur in this application's vocabulary.  ASCII characters have no
canonical decomposition; characters missing from the table are left as given. -/
def nfdTable : List (Nat × List Nat) :=
  [ (0xE9, [0x65, 0x301]),  -- é
    (0xE8, [0x65, 0x300]),  -- è
    (0xEA, [0x65, 0x302]),  -- ê
    (0xEB, [0x65, 0x308]),  -- ë
    (0xE0, [0x61, 0x300]),  -- à
    (0xE2, [0x61, 0x302]),  -- â
    (0xE7, [0x63, 0x327]),  -- ç
    (0xEE, [0x69, 0x302]),  -- î
    (0xEF, [0x69, 0x308]),  -- ï
    (0xF4, [0x6F, 0x302]),  -- ô
    (0xF6, [0x6F, 0x308]),  -- ö
    (0xFB, [0x75, 0x302]),  -- û
    (0xFC, [0x75, 0x308]),  -- ü
    (0x15F, [0x73, 0x327]), -- ş
    (0x11F, [0x67, 0x306]), -- ğ
    (0x130, [0x49, 0x307]), -- İ
    (0xC9, [0x45, 0x301]),  -- É
    (0xC7, [0x43, 0x327]),  -- Ç
    (0xD6, [0x4F, 0x308]),  -- Ö
    (0xDC, [0x55, 0x308]),  -- Ü
    (0x15E, [0x53, 0x327]), -- Ş
    (0x11E, [0x47, 0x306]) ] -- Ğ

/-- NFD decomposition of one code point (model of `String.prototype.normalize("NFD")`). -/
def nfdChar (c : Nat) : List Nat :=
  if c < 128 then [c]
  else
    match nfdTable.lookup c with
    | some l => l
    | none => [c]

/-- Combining diacritical mark, the range stripped by `replace(/[̀-ͯ]/g, "")`. -/
def isCombiningMark (c : Nat) : Bool := 0x300 ≤ c && c ≤ 0x36F

/-- Modelled JS builtin `toLowerCase` restricted to ASCII letters (the only
characters that can still carry case after NFD decomposition and mark
stripping in this application's data). -/
def toLowerChar (c : Nat) : Nat := if 65 ≤ c && c ≤ 90 then c + 32 else c

/-- Characters kept by `replace(/[^a-z0-9]/g, "")`. -/
def isAllowed (c : Nat) : Bool := (97 ≤ c && c ≤ 122) || (48 ≤ c && c ≤ 57)

/-- The `normalize` helper of `WordRainGame`: NFD-decompose, strip combining
marks, lowercase, keep only `[a-z0-9]`. -/
def normalize (s : List Nat) : List Nat :=
  (((s.flatMap nfdChar).filter (fun c => !isCombiningMark c)).map toLowerChar).filter isAllowed

/-- The comparison used by `checkInput`: target text and input match iff their
normalized forms are identical. -/
def textMatches (target input : List Nat) : Bool := normalize target == normalize input

/-- The `Vocabulary` record of `types.ts`. -/
structure Vocabulary where
  fr : List Nat
  tr : List Nat
  pos : List Nat
  audio_tts : List Nat
deriving DecidableEq, Repr

/-- The 60-entry `FALLBACK_VOCAB` list at the bottom of `WordRainGame.tsx`. -/
def FALLBACK_VOCAB : List Vocabulary :=
  [ ⟨str "bonjour", str "merhaba", str "int", str ""⟩,
    ⟨str "chat", str "kedi", str "noun", str ""⟩,
    ⟨str "chien", str "köpek", str "noun", str ""⟩,
    ⟨str "maison", str "ev", str "noun", str ""⟩,
    ⟨str "rouge", str "kırmızı", str "adj", str ""⟩,
    ⟨str "bleu", str "mavi", str "adj", str ""⟩,
    ⟨str "pain", str "ekmek", str "noun", str ""⟩,
    ⟨str "eau", str "su", str "noun", str ""⟩,
    ⟨str "ami", str "arkadaş", str "noun", str ""⟩,
    ⟨str "oui", str "evet", str "int", str ""⟩,
    ⟨str "non", str "hayır", str "int", str ""⟩,
    ⟨str "amour", str "aşk", str "noun", str ""⟩,
    ⟨str "merci", str "teşekkürler", str "int", str ""⟩,
    ⟨str "nuit", str "gece", str "noun", str ""⟩,
    ⟨str "jour", str "gün", str "noun", str ""⟩,
    ⟨str "homme", str "adam", str "noun", str ""⟩,
    ⟨str "femme", str "kadın", str "noun", str ""⟩,
    ⟨str "enfant", str "çocuk", str "noun", str ""⟩,
    ⟨str "manger", str "yemek", str "verb", str ""⟩,
    ⟨str "boire", str "içmek", str "verb", str ""⟩,
    ⟨str "livre", str "kitap", str "noun", str ""⟩,
    ⟨str "voiture", str "araba", str "noun", str ""⟩,
    ⟨str "porte", str "kapı", str "noun", str ""⟩,
    ⟨str "fenêtre", str "pencere", str "noun", str ""⟩,
    ⟨str "noir", str "siyah", str "adj", str ""⟩,
    ⟨str "blanc", str "beyaz", str "adj", str ""⟩,
    ⟨str "soleil", str "güneş", str "noun", str ""⟩,
    ⟨str "lune", str "ay", str "noun", str ""⟩,
    ⟨str "un", str "bir", str "num", str ""⟩,
    ⟨str "deux", str "iki", str "num", str ""⟩,
    ⟨str "trois", str "üç", str "num", str ""⟩,
    ⟨str "père", str "baba", str "noun", str ""⟩,
    ⟨str "mère", str "anne", str "noun", str ""⟩,
    ⟨str "frère", str "erkek kardeş", str "noun", str ""⟩,
    ⟨str "soeur", str "kız kardeş", str "noun", str ""⟩,
    ⟨str "pomme", str "elma", str "noun", str ""⟩,
    ⟨str "lait", str "süt", str "noun", str ""⟩,
    ⟨str "café", str "kahve", str "noun", str ""⟩,
    ⟨str "table", str "masa", str "noun", str ""⟩,
    ⟨str "chaise", str "sandalye", str "noun", str ""⟩,
    ⟨str "lit", str "yatak", str "noun", str ""⟩,
    ⟨str "grand", str "büyük", str "adj", str ""⟩,
    ⟨str "petit", str "küçük", str "adj", str ""⟩,
    ⟨str "bon", str "iyi", str "adj", str ""⟩,
    ⟨str "mauvais", str "kötü", str "adj", str ""⟩,
    ⟨str "aller", str "gitmek", str "verb", str ""⟩,
    ⟨str "voir", str "görmek", str "verb", str ""⟩,
    ⟨str "faire", str "yapmak", str "verb", str ""⟩,
    ⟨str "aimer", str "sevmek", str "verb", str ""⟩,
    ⟨str "école", str "okul", str "noun", str ""⟩,
    ⟨str "ville", str "şehir", str "noun", str ""⟩,
    ⟨str "rue", str "sokak", str "noun", str ""⟩,
    ⟨str "sac", str "çanta", str "noun", str ""⟩,
    ⟨str "argent", str "para", str "noun", str ""⟩,
    ⟨str "stylo", str "kalem", str "noun", str ""⟩,
    ⟨str "heure", str "saat", str "noun", str ""⟩,
    ⟨str "temps", str "zaman", str "noun", str ""⟩,
    ⟨str "année", str "yıl", str "noun", str ""⟩,
    ⟨str "garçon", str "oğlan", str "noun", str ""⟩,
    ⟨str "fille", str "kız", str "noun", str ""⟩ ]

example : normalize (str "Café") = str "cafe" := by decide
example : normalize (str "kedİ") = str "kedi" := by decide

/-- The `FallingWord` record of `WordRainGame.tsx`. -/
structure FallingWord where
  id : ℚ
  textFr : List Nat
  textTr : List Nat
  x : ℚ
  y : ℚ
  speed : ℚ
  color : List Nat
  isNew : Bool
  originalVocab : Vocabulary
deriving DecidableEq, Repr

/-- The `Particle` record of `WordRainGame.tsx`. -/
structure Particle where
  x : ℚ
  y : ℚ
  vx : ℚ
  vy : ℚ
  life : ℚ
  color : List Nat
deriving DecidableEq, Repr

/-- The session state of `WordRainGame`: the mutable `gameState` ref together
with the React state it mirrors (`inputValue`, `gameOver`, `level`; the React
`score` and `lives` copies are kept in lock-step with the ref by the code and
are represented once here).  `userVocab` is the component's `vocabulary` prop. -/
structure GameState where
  words : List FallingWord
  particles : List Particle
  sessionLearnedWords : List Vocabulary
  recentHistory : List (List Nat)
  lastSpawnTime : ℚ
  spawnRate : ℚ
  score : Nat
  lives : Int
  isPlaying : Bool
  vocabList : List Vocabulary
  userVocab : List Vocabulary
  inputValue : List Nat
  gameOver : Bool
  level : Nat
deriving DecidableEq, Repr

/-- Initial session state: the `useState`/`useRef` initializers of the
component (`score 0`, `lives 3`, `spawnRate 3000`, `level 1`, vocab pool =
user vocabulary, extended by the fallback list when it has at most 20 entries). -/
def initState (v : List Vocabulary) : GameState where
  words := []
  particles := []
  sessionLearnedWords := []
  recentHistory := []
  lastSpawnTime := 0
  spawnRate := 3000
  score := 0
  lives := 3
  isPlaying := true
  vocabList := if v.length > 20 then v else v ++ FALLBACK_VOCAB
  userVocab := v
  inputValue := []
  gameOver := false
  level := 1

/-- Spawn-interval recomputation performed on every match:
`Math.max(800, 3000 - score * 1.5)`. -/
def spawnRateFor (score : Nat) : ℚ := max 800 (3000 - (score : ℚ) * (3 / 2))

/-- Second half of `spawnWord`, once a candidate `v` has been selected: push
its source text onto the bounded history (dropping the oldest entry past 20),
classify it against the caller's vocabulary, and append the new on-screen word.
`xr` and `jr` stand for the two `Math.random()` draws (horizontal placement and
speed jitter), `newId` for `Date.now() + Math.random()`. -/
def spawnSelected (st : GameState) (width : ℚ) (v : Vocabulary) (xr jr newId : ℚ) :
    GameState :=
  let hist1 := st.recentHistory ++ [v.fr]
  let hist2 := if hist1.length > 20 then hist1.drop 1 else hist1
  let isKnown := st.userVocab.any (fun u => u.fr == v.fr)
  let baseSpeed : ℚ := 3 / 20 + (st.score : ℚ) / 2000
  let w : FallingWord :=
    { id := newId
      textFr := v.fr
      textTr := v.tr
      x := xr * (width - 150) + 20
      y := -50
      speed := baseSpeed + jr * (1 / 5)
      color := if isKnown then str "#ffffff" else str "#fbbf24"
      isNew := !isKnown
      originalVocab := v }
  { st with recentHistory := hist2, words := st.words ++ [w] }

/-- The `spawnWord` routine: filter the pool against on-screen words and the
recent-history list; on starvation clear the history and retry against the
on-screen exclusion only; on renewed starvation abort the spawn.  `pick`
models `Math.floor(Math.random() * candidates.length)` (reduced mod the
candidate count, so it is always in range exactly as in the source); the
`none` branches of the lookups are unreachable because the selected index is
below the length of a non-empty list. -/
def spawnWord (st : GameState) (width : ℚ) (pick : Nat) (xr jr newId : ℚ) : GameState :=
  let candidates := st.vocabList.filter (fun v =>
    !(st.words.any (fun w => w.textFr == v.fr)) && !(st.recentHistory.contains v.fr))
  if candidates.isEmpty then
    let st1 := { st with recentHistory := ([] : List (List Nat)) }
    let candidates2 := st1.vocabList.filter (fun v =>
      !(st1.words.any (fun w => w.textFr == v.fr)))
    match candidates2.get? (pick % candidates2.length) with
    | none => st1
    | some v => spawnSelected st1 width v xr jr newId
  else
    match candidates.get? (pick % candidates.length) with
    | none => st
    | some v => spawnSelected st width v xr jr newId

/-- The particle burst of `createExplosion`: 15 particles at the matched
word's position with full life; `rv` carries the random velocities
`((Math.random() - 0.5) * 10)` of the burst. -/
def createExplosion (x y : ℚ) (color : List Nat) (rv : List (ℚ × ℚ)) : List Particle :=
  rv.map (fun p => { x := x, y := y, vx := p.1, vy := p.2, life := 1, color := color })

/-- Search-and-splice helper embedding `findIndex` followed by `splice(i, 1)`:
returns the first element satisfying `p` together with the list with exactly
that element removed. -/
def findRemove {α : Type} (p : α → Bool) : List α → Option (α × List α)
  | [] => none
  | w :: ws =>
    if p w then some (w, ws)
    else
      match findRemove p ws with
      | some (m, rest) => some (m, w :: rest)
      | none => none

/-- The predicate of `checkInput`'s `findIndex` call. -/
def matchPred (input : List Nat) (w : FallingWord) : Bool := textMatches w.textTr input

/-- The `checkInput` routine: find the first on-screen word whose normalized
target text equals the normalized input; on a match record the word if new
(deduplicated by source text), add 10 to the score, recompute the level and
the spawn interval, emit a particle burst, remove the word and clear the
input field.  Returns the updated state and whether a match fired. -/
def checkInput (st : GameState) (input : List Nat) (rv : List (ℚ × ℚ)) :
    GameState × Bool :=
  match findRemove (matchPred input) st.words with
  | none => (st, false)
  | some (word, rest) =>
    let learned :=
      if word.isNew && !(st.sessionLearnedWords.any (fun v => v.fr == word.originalVocab.fr))
      then st.sessionLearnedWords ++ [word.originalVocab]
      else st.sessionLearnedWords
    let newScore := st.score + 10
    let newLevel := newScore / 100 + 1
    ({ st with
        words := rest
        sessionLearnedWords := learned
        score := newScore
        level := if newLevel > st.level then newLevel else st.level
        particles := st.particles ++ createExplosion word.x word.y (str "#4ade80") rv
        inputValue := []
        spawnRate := spawnRateFor newScore }, true)

/-- The `onChange` handler of the text input: store the typed text, then run
`checkInput` on it (check on every keystroke). -/
def handleInputChange (st : GameState) (text : List Nat) (rv : List (ℚ × ℚ)) : GameState :=
  (checkInput { st with inputValue := text } text rv).1

/-- The `onKeyDown` handler for the Enter key: run `checkInput` on the current
input value. -/
def handleEnterKey (st : GameState) (rv : List (ℚ × ℚ)) : GameState :=
  (checkInput st st.inputValue rv).1

/-- One pass of the word-update loop of `gameLoop`: every word advances by its
speed; words past the bottom boundary are removed and counted as misses.  The
source iterates in reverse index order and splices in place, which removes and
updates each element exactly once and keeps the survivors' relative order —
the same result this recursion computes front-to-back. -/
def stepWords (height : ℚ) : List FallingWord → List FallingWord × Nat
  | [] => ([], 0)
  | w :: ws =>
    let w' := { w with y := w.y + w.speed }
    let r := stepWords height ws
    if w'.y > height then (r.1, r.2 + 1) else (w' :: r.1, r.2)

/-- One pass of the particle-update loop of `gameLoop`: advance by velocity,
decay life by 0.05, drop particles whose life reaches 0. -/
def stepParticles (ps : List Particle) : List Particle :=
  ps.filterMap (fun p =>
    let p' := { p with x := p.x + p.vx, y := p.y + p.vy, life := p.life - 1 / 20 }
    if p'.life ≤ 0 then none else some p')

/-- One frame of `gameLoop`.  When the session is not playing the frame does
nothing (the source returns before touching any state and schedules no further
frame).  Otherwise: spawn when the interval elapsed, advance every word,
deduct one life per word past the bottom, and — matching the in-loop
`if (lives <= 0)` check, which fires iff at least one miss occurred and the
final life count is at most 0, since lives only decrease within the pass —
transition to game over; finally advance the particles. -/
def gameLoopFrame (st : GameState) (now width height : ℚ) (pick : Nat)
    (xr jr newId : ℚ) : GameState :=
  if st.isPlaying = false then st
  else
    let st1 :=
      if now - st.lastSpawnTime > st.spawnRate
      then { spawnWord st width pick xr jr newId with lastSpawnTime := now }
      else st
    let r := stepWords height st1.words
    let newLives := st1.lives - (r.2 : Int)
    let st2 := { st1 with words := r.1, lives := newLives }
    let st3 :=
      if 0 < r.2 ∧ newLives ≤ 0
      then { st2 with gameOver := true, isPlaying := false }
      else st2
    { st3 with particles := stepParticles st3.particles }

/-- Calls the engine makes to its caller (`onComplete` / `onExit` props). -/
inductive CallbackEvent where
  | complete (xp : Nat) (newWords : List Vocabulary)
  | exitGame
deriving DecidableEq, Repr

/-- The `handleGameOverExit` handler (game-over modal dismissal): award
`floor(score / 10)` XP, report the session's learned words, then exit. -/
def handleGameOverExit (st : GameState) : List CallbackEvent :=
  [CallbackEvent.complete (st.score / 10) st.sessionLearnedWords, CallbackEvent.exitGame]

/-- The header exit button: its `onClick` is the bare `onExit` prop. -/
def exitButtonClick (_st : GameState) : List CallbackEvent :=
  [CallbackEvent.exitGame]

/-- Session traces: all states reachable from the initial state by frames,
keystroke-driven input changes and Enter presses, counting successful matches.
Input events only occur while the game-over modal is not shown (the input
field is unmounted once `gameOver` is set). -/
inductive ReachTrace (v : List Vocabulary) : GameState → Nat → Prop where
  | init : ReachTrace v (initState v) 0
  | frame (s : GameState) (n : Nat) (now width height : ℚ) (pick : Nat) (xr jr newId : ℚ) :
      ReachTrace v s n →
      ReachTrace v (gameLoopFrame s now width height pick xr jr newId) n
  | inputChange (s : GameState) (n : Nat) (text : List Nat) (rv : List (ℚ × ℚ)) :
      ReachTrace v s n → s.gameOver = false →
      ReachTrace v (handleInputChange s text rv)
        (if (checkInput { s with inputValue := text } text rv).2 then n + 1 else n)
  | enterKey (s : GameState) (n : Nat) (rv : List (ℚ × ℚ)) :
      ReachTrace v s n → s.gameOver = false →
      ReachTrace v (handleEnterKey s rv)
        (if (checkInput s s.inputValue rv).2 then n + 1 else n)

/-- Reachability of a session state, forgetting the match count. -/
def Reachable (v : List Vocabulary) (s : GameState) : Prop := ∃ n, ReachTrace v s n

/-! ### Helper lemmas about `findRemove` -/

theorem findRemove_eq_none {α : Type} {p : α → Bool} {l : List α} :
    findRemove p l = none ↔ ∀ w ∈ l, p w = false := by
  induction l with
  | nil => simp [findRemove]
  | cons a as ih =>
    by_cases hp : p a = true
    · simp [findRemove, hp]
    · cases hfr : findRemove p as with
      | none =>
        simp only [findRemove, hp, if_false, hfr, Bool.not_eq_true]
        constructor
        · intro _ w hw
          rcases List.mem_cons.mp hw with h | h
          · simpa [h] using hp
          · exact ih.mp hfr w h
        · intro _; rfl
      | some pr =>
        obtain ⟨m, r⟩ := pr
        simp only [findRemove, hp, if_false, hfr, Bool.not_eq_true]
        constructor
        · intro h; cases h
        · intro h
          have : findRemove p as = none := ih.mpr (fun w hw => h w (List.mem_cons_of_mem _ hw))
          rw [hfr] at this; cases this

theorem findRemove_eq_some {α : Type} {p : α → Bool} {l : List α} {w : α} {rest : List α}
    (h : findRemove p l = some (w, rest)) :
    ∃ l1 l2, l = l1 ++ w :: l2 ∧ rest = l1 ++ l2 ∧ (∀ u ∈ l1, p u = false) ∧ p w = true := by
  induction l generalizing w rest with
  | nil => simp [findRemove] at h
  | cons a as ih =>
    by_cases hp : p a = true
    · have hstep : findRemove p (a :: as) = some (a, as) := by simp [findRemove, hp]
      rw [hstep] at h
      cases h
      exact ⟨[], as, rfl, rfl, by simp, hp⟩
    · cases hfr : findRemove p as with
      | none => simp [findRemove, hp, hfr] at h
      | some pr =>
        obtain ⟨m, r⟩ := pr
        have hstep : findRemove p (a :: as) = some (m, a :: r) := by
          simp [findRemove, hp, hfr]
        rw [hstep] at h
        cases h
        obtain ⟨l1, l2, h1, h2, h3, h4⟩ := ih hfr
        refine ⟨a :: l1, l2, by simp [h1], by simp [h2], ?_, h4⟩
        intro u hu
        rcases List.mem_cons.mp hu with h | h
        · simpa [h] using hp
        · exact h3 u h

/-! ### Helper lemmas about `normalize` -/

theorem mem_normalize_allowed {s : List Nat} {c : Nat} (h : c ∈ normalize s) :
    isAllowed c = true :=
  (List.mem_filter.mp h).2

theorem normalize_fixed {l : List Nat} (h : ∀ c ∈ l, isAllowed c = true) :
    normalize l = l := by
  induction l with
  | nil => rfl
  | cons c cs ih =>
    have hc := h c (List.mem_cons_self c cs)
    have hc' : (97 ≤ c ∧ c ≤ 122) ∨ (48 ≤ c ∧ c ≤ 57) := by
      simpa [isAllowed, Bool.or_eq_true, Bool.and_eq_true, decide_eq_true_eq] using hc
    have h1 : nfdChar c = [c] := by
      unfold nfdChar
      rw [if_pos (by omega)]
    have h2 : isCombiningMark c = false := by
      simp only [isCombiningMark, Bool.and_eq_false_iff, decide_eq_false_iff_not]
      omega
    have h3 : toLowerChar c = c := by
      unfold toLowerChar
      rw [if_neg]
      simp only [Bool.and_eq_true, decide_eq_true_eq, not_and]
      omega
    have hcs : ∀ x ∈ cs, isAllowed x = true := fun x hx => h x (List.mem_cons_of_mem _ hx)
    have hstep : normalize (c :: cs) = c :: normalize cs := by
      simp [normalize, h1, h2, h3, hc]
    rw [hstep, ih hcs]

theorem normalize_idem (s : List Nat) : normalize (normalize s) = normalize s :=
  normalize_fixed (fun _ hc => mem_normalize_allowed hc)

/-! ### The session invariant -/

/-- Invariant satisfied by every reachable session state. -/
structure Inv (s : GameState) : Prop where
  livesLe : s.lives ≤ 3
  gameOverIff : s.gameOver = true ↔ s.lives ≤ 0
  playingEq : s.isPlaying = !s.gameOver
  wordsNodup : s.words.Pairwise (fun a b => a.textFr ≠ b.textFr)
  learnedNodup : s.sessionLearnedWords.Pairwise (fun a b => a.fr ≠ b.fr)
  levelEq : s.level = s.score / 100 + 1
  rateLo : (800 : ℚ) ≤ s.spawnRate
  rateHi : s.spawnRate ≤ 3000

theorem spawnRateFor_bounds (score : Nat) :
    (800 : ℚ) ≤ spawnRateFor score ∧ spawnRateFor score ≤ 3000 := by
  constructor
  · exact le_max_left _ _
  · unfold spawnRateFor
    apply max_le (by norm_num)
    have h0 : (0 : ℚ) ≤ (score : ℚ) * (3 / 2) := by positivity
    linarith

theorem spawnRateFor_antitone {s1 s2 : Nat} (h : s1 ≤ s2) :
    spawnRateFor s2 ≤ spawnRateFor s1 := by
  unfold spawnRateFor
  apply max_le (le_max_left _ _)
  have hc : (s1 : ℚ) ≤ (s2 : ℚ) := Nat.cast_le.mpr h
  calc 3000 - (s2 : ℚ) * (3 / 2) ≤ 3000 - (s1 : ℚ) * (3 / 2) := by nlinarith
    _ ≤ max 800 (3000 - (s1 : ℚ) * (3 / 2)) := le_max_right _ _

theorem inv_initState (v : List Vocabulary) : Inv (initState v) := by
  refine ⟨by simp [initState], by simp [initState], by simp [initState], by simp [initState],
    by simp [initState], by simp [initState], by norm_num [initState], by norm_num [initState]⟩

/-! ### Preservation of the invariant by `checkInput` -/

theorem checkInput_of_none {st : GameState} {input : List Nat} {rv : List (ℚ × ℚ)}
    (h : findRemove (matchPred input) st.words = none) :
    checkInput st input rv = (st, false) := by
  unfold checkInput
  rw [h]

theorem checkInput_of_some {st : GameState} {input : List Nat} {rv : List (ℚ × ℚ)}
    {w : FallingWord} {rest : List FallingWord}
    (h : findRemove (matchPred input) st.words = some (w, rest)) :
    checkInput st input rv =
      ({ st with
          words := rest
          sessionLearnedWords :=
            if w.isNew && !(st.sessionLearnedWords.any (fun v => v.fr == w.originalVocab.fr))
            then st.sessionLearnedWords ++ [w.originalVocab]
            else st.sessionLearnedWords
          score := st.score + 10
          level :=
            if (st.score + 10) / 100 + 1 > st.level
            then (st.score + 10) / 100 + 1
            else st.level
          particles := st.particles ++ createExplosion w.x w.y (str "#4ade80") rv
          inputValue := []
          spawnRate := spawnRateFor (st.score + 10) }, true) := by
  unfold checkInput
  rw [h]

theorem nodup_append_vocab {l : List Vocabulary} {w : Vocabulary}
    (hl : l.Pairwise (fun a b => a.fr ≠ b.fr))
    (hw : l.any (fun v => v.fr == w.fr) = false) :
    (l ++ [w]).Pairwise (fun a b => a.fr ≠ b.fr) := by
  rw [List.pairwise_append]
  refine ⟨hl, List.pairwise_singleton _ _, ?_⟩
  intro a ha b hb
  rw [List.mem_singleton] at hb
  intro hEq
  have htrue : l.any (fun v => v.fr == w.fr) = true :=
    List.any_eq_true.mpr ⟨a, ha, by simp [hEq, hb]⟩
  rw [hw] at htrue
  cases htrue

theorem inv_checkInput {st : GameState} (hI : Inv st) (input : List Nat)
    (rv : List (ℚ × ℚ)) : Inv (checkInput st input rv).1 := by
  cases hfr : findRemove (matchPred input) st.words with
  | none => rw [checkInput_of_none hfr]; exact hI
  | some pr =>
    obtain ⟨w, rest⟩ := pr
    rw [checkInput_of_some hfr]
    obtain ⟨l1, l2, h1, h2, _, _⟩ := findRemove_eq_some hfr
    refine ⟨hI.livesLe, hI.gameOverIff, hI.playingEq, ?_, ?_, ?_, ?_, ?_⟩
    · show rest.Pairwise (fun a b => a.textFr ≠ b.textFr)
      have hsub : rest.Sublist st.words := by
        rw [h1, h2]
        exact (List.sublist_cons_self w l2).append_left l1
      exact hI.wordsNodup.sublist hsub
    · show (if w.isNew && !(st.sessionLearnedWords.any (fun v => v.fr == w.originalVocab.fr))
            then st.sessionLearnedWords ++ [w.originalVocab]
            else st.sessionLearnedWords).Pairwise (fun a b => a.fr ≠ b.fr)
      by_cases hguard :
          (w.isNew && !(st.sessionLearnedWords.any (fun v => v.fr == w.originalVocab.fr))) = true
      · rw [if_pos hguard]
        have hany : st.sessionLearnedWords.any (fun v => v.fr == w.originalVocab.fr) = false := by
          have h2 := ((Bool.and_eq_true _ _).mp hguard).2
          simpa using h2
        exact nodup_append_vocab hI.learnedNodup hany
      · rw [if_neg hguard]
        exact hI.learnedNodup
    · show (if (st.score + 10) / 100 + 1 > st.level
            then (st.score + 10) / 100 + 1 else st.level) = (st.score + 10) / 100 + 1
      by_cases hgt : (st.score + 10) / 100 + 1 > st.level
      · rw [if_pos hgt]
      · rw [if_neg hgt]
        have hle : st.level ≤ (st.score + 10) / 100 + 1 := by
          rw [hI.levelEq]
          exact Nat.succ_le_succ (Nat.div_le_div_right (Nat.le_add_right _ _))
        omega
    · exact (spawnRateFor_bounds _).1
    · exact (spawnRateFor_bounds _).2

/-! ### Preservation of the invariant by `spawnWord` -/

theorem fresh_of_any_false {ws : List FallingWord} {t : List Nat}
    (h : ws.any (fun w => w.textFr == t) = false) :
    ∀ u ∈ ws, u.textFr ≠ t := by
  intro u hu hEq
  have htrue : ws.any (fun w => w.textFr == t) = true :=
    List.any_eq_true.mpr ⟨u, hu, by simp [hEq]⟩
  rw [h] at htrue
  cases htrue

theorem pairwise_append_single {ws : List FallingWord} {w : FallingWord}
    (h : ws.Pairwise (fun a b => a.textFr ≠ b.textFr))
    (hf : ∀ u ∈ ws, u.textFr ≠ w.textFr) :
    (ws ++ [w]).Pairwise (fun a b => a.textFr ≠ b.textFr) := by
  rw [List.pairwise_append]
  refine ⟨h, List.pairwise_singleton _ _, ?_⟩
  intro a ha b hb
  rw [List.mem_singleton] at hb
  rw [hb]
  exact hf a ha

theorem inv_spawnSelected {st : GameState} (hI : Inv st) {v : Vocabulary}
    (hfresh : ∀ u ∈ st.words, u.textFr ≠ v.fr) (width xr jr newId : ℚ) :
    Inv (spawnSelected st width v xr jr newId) := by
  refine ⟨hI.livesLe, hI.gameOverIff, hI.playingEq, ?_, hI.learnedNodup, hI.levelEq,
    hI.rateLo, hI.rateHi⟩
  exact pairwise_append_single hI.wordsNodup hfresh

theorem inv_spawnWord {st : GameState} (hI : Inv st) (width : ℚ) (pick : Nat)
    (xr jr newId : ℚ) : Inv (spawnWord st width pick xr jr newId) := by
  unfold spawnWord
  simp only []
  by_cases h1 : (st.vocabList.filter (fun v =>
      !(st.words.any (fun w => w.textFr == v.fr)) && !(st.recentHistory.contains v.fr))).isEmpty
  · rw [if_pos h1]
    have hI1 : Inv { st with recentHistory := ([] : List (List Nat)) } :=
      ⟨hI.livesLe, hI.gameOverIff, hI.playingEq, hI.wordsNodup, hI.learnedNodup,
        hI.levelEq, hI.rateLo, hI.rateHi⟩
    split
    · exact hI1
    · rename_i v hg
      apply inv_spawnSelected hI1 _ width xr jr newId
      have hv := List.get?_mem hg
      have hp := (List.mem_filter.mp hv).2
      have hany : st.words.any (fun w => w.textFr == v.fr) = false := by
        simpa using hp
      exact fresh_of_any_false hany
  · rw [if_neg h1]
    split
    · exact hI
    · rename_i v hg
      apply inv_spawnSelected hI _ width xr jr newId
      have hv := List.get?_mem hg
      have hp := (List.mem_filter.mp hv).2
      have hany : st.words.any (fun w => w.textFr == v.fr) = false := by
        have h2 := (Bool.and_eq_true _ _).mp hp
        simpa using h2.1
      exact fresh_of_any_false hany

/-! ### Preservation of the invariant by `gameLoopFrame` -/

theorem stepWords_textFr_sublist (h : ℚ) (ws : List FallingWord) :
    ((stepWords h ws).1.map (fun w => w.textFr)).Sublist (ws.map (fun w => w.textFr)) := by
  induction ws with
  | nil => simp [stepWords]
  | cons w ws ih =>
    by_cases hy : w.y + w.speed > h
    · simp only [stepWords, hy, if_pos, List.map_cons]
      exact ih.trans (List.sublist_cons_self _ _)
    · simp only [stepWords, hy, if_neg, List.map_cons]
      exact ih.cons₂ _

theorem stepWords_nodup {h : ℚ} {ws : List FallingWord}
    (hw : ws.Pairwise (fun a b => a.textFr ≠ b.textFr)) :
    (stepWords h ws).1.Pairwise (fun a b => a.textFr ≠ b.textFr) := by
  have h1 : (ws.map (fun w => w.textFr)).Pairwise Ne := List.pairwise_map.mpr hw
  have h2 : ((stepWords h ws).1.map (fun w => w.textFr)).Pairwise Ne :=
    h1.sublist (stepWords_textFr_sublist h ws)
  exact List.pairwise_map.mp h2

/-- Fields of the session state that `spawnWord` never writes. -/
theorem spawnWord_unchanged (st : GameState) (width : ℚ) (pick : Nat) (xr jr newId : ℚ) :
    (spawnWord st width pick xr jr newId).lives = st.lives
    ∧ (spawnWord st width pick xr jr newId).gameOver = st.gameOver
    ∧ (spawnWord st width pick xr jr newId).isPlaying = st.isPlaying
    ∧ (spawnWord st width pick xr jr newId).score = st.score
    ∧ (spawnWord st width pick xr jr newId).spawnRate = st.spawnRate
    ∧ (spawnWord st width pick xr jr newId).sessionLearnedWords = st.sessionLearnedWords
    ∧ (spawnWord st width pick xr jr newId).level = st.level
    ∧ (spawnWord st width pick xr jr newId).inputValue = st.inputValue := by
  unfold spawnWord
  simp only []
  split
  · split <;> simp [spawnSelected]
  · split <;> simp [spawnSelected]

theorem inv_gameLoopFrame {st : GameState} (hI : Inv st) (now width height : ℚ)
    (pick : Nat) (xr jr newId : ℚ) :
    Inv (gameLoopFrame st now width height pick xr jr newId) := by
  unfold gameLoopFrame
  by_cases hpl : st.isPlaying = false
  · rw [if_pos hpl]; exact hI
  · rw [if_neg hpl]
    simp only []
    have hplay : st.isPlaying = true := by
      revert hpl; cases st.isPlaying <;> simp
    have hgo : st.gameOver = false := by
      have h := hI.playingEq
      rw [hplay] at h
      cases hc : st.gameOver
      · rfl
      · rw [hc] at h; cases h
    have hlive : 0 < st.lives := by
      by_contra hc
      push_neg at hc
      have := hI.gameOverIff.mpr hc
      rw [hgo] at this
      cases this
    set st1 := if now - st.lastSpawnTime > st.spawnRate
      then { spawnWord st width pick xr jr newId with lastSpawnTime := now }
      else st with hst1
    have hI1 : Inv st1 ∧ st1.lives = st.lives ∧ st1.gameOver = st.gameOver
        ∧ st1.isPlaying = st.isPlaying := by
      rw [hst1]
      by_cases hsp : now - st.lastSpawnTime > st.spawnRate
      · rw [if_pos hsp]
        obtain ⟨u1, u2, u3, u4, u5, u6, u7, u8⟩ := spawnWord_unchanged st width pick xr jr newId
        have hIs := inv_spawnWord hI width pick xr jr newId
        exact ⟨⟨hIs.livesLe, hIs.gameOverIff, hIs.playingEq, hIs.wordsNodup, hIs.learnedNodup,
          hIs.levelEq, hIs.rateLo, hIs.rateHi⟩, u1, u2, u3⟩
      · rw [if_neg hsp]
        exact ⟨hI, rfl, rfl, rfl⟩
    obtain ⟨hI1, hl1, hg1, hp1⟩ := hI1
    set r := stepWords height st1.words with hr
    set newLives := st1.lives - (r.2 : Int) with hnl
    have hLivesLe : newLives ≤ st1.lives := by
      rw [hnl]; omega
    have hNodup2 : (stepWords height st1.words).1.Pairwise (fun a b => a.textFr ≠ b.textFr) :=
      stepWords_nodup hI1.wordsNodup
    by_cases hcond : 0 < r.2 ∧ newLives ≤ 0
    · rw [if_pos hcond]
      refine ⟨?_, ?_, ?_, hNodup2, hI1.learnedNodup, hI1.levelEq, hI1.rateLo, hI1.rateHi⟩
      · show newLives ≤ 3
        calc newLives ≤ st1.lives := hLivesLe
          _ = st.lives := hl1
          _ ≤ 3 := hI.livesLe
      · show (true = true) ↔ newLives ≤ 0
        simp [hcond.2]
      · rfl
    · rw [if_neg hcond]
      have hpos : 0 < newLives := by
        rcases Nat.eq_zero_or_pos r.2 with hz | hp
        · rw [hnl, hz, hl1]; simpa using hlive
        · by_contra hc
          push_neg at hc
          exact hcond ⟨hp, hc⟩
      refine ⟨?_, ?_, ?_, hNodup2, hI1.learnedNodup, hI1.levelEq, hI1.rateLo, hI1.rateHi⟩
      · show newLives ≤ 3
        calc newLives ≤ st1.lives := hLivesLe
          _ = st.lives := hl1
          _ ≤ 3 := hI.livesLe
      · show (st1.gameOver = true) ↔ newLives ≤ 0
        rw [hg1, hgo]
        constructor
        · intro h; cases h
        · intro h; omega
      · show st1.isPlaying = !st1.gameOver
        rw [hp1, hg1]
        exact hI.playingEq

/-! ### Every reachable state satisfies the invariant, and the score counts matches -/

theorem checkInput_score (st : GameState) (input : List Nat) (rv : List (ℚ × ℚ)) :
    ((checkInput st input rv).2 = true ∧ (checkInput st input rv).1.score = st.score + 10)
    ∨ ((checkInput st input rv).2 = false ∧ (checkInput st input rv).1 = st) := by
  cases hfr : findRemove (matchPred input) st.words with
  | none => right; rw [checkInput_of_none hfr]; exact ⟨rfl, rfl⟩
  | some pr =>
    obtain ⟨w, rest⟩ := pr
    left
    rw [checkInput_of_some hfr]
    exact ⟨rfl, rfl⟩

theorem gameLoopFrame_score (st : GameState) (now width height : ℚ) (pick : Nat)
    (xr jr newId : ℚ) :
    (gameLoopFrame st now width height pick xr jr newId).score = st.score := by
  unfold gameLoopFrame
  by_cases hpl : st.isPlaying = false
  · rw [if_pos hpl]
  · rw [if_neg hpl]
    by_cases hsp : now - st.lastSpawnTime > st.spawnRate
    · simp only [if_pos hsp]
      split <;> simp [(spawnWord_unchanged st width pick xr jr newId).2.2.2.1]
    · simp only [if_neg hsp]
      split <;> rfl

theorem reach_inv {v : List Vocabulary} {s : GameState} {n : Nat}
    (h : ReachTrace v s n) : Inv s ∧ s.score = 10 * n := by
  induction h with
  | init => exact ⟨inv_initState v, rfl⟩
  | frame s n now width height pick xr jr newId _ ih =>
    exact ⟨inv_gameLoopFrame ih.1 now width height pick xr jr newId,
      (gameLoopFrame_score s now width height pick xr jr newId).trans ih.2⟩
  | inputChange s n text rv _ hgo ih =>
    have hIs : Inv { s with inputValue := text } :=
      ⟨ih.1.livesLe, ih.1.gameOverIff, ih.1.playingEq, ih.1.wordsNodup, ih.1.learnedNodup,
        ih.1.levelEq, ih.1.rateLo, ih.1.rateHi⟩
    refine ⟨inv_checkInput hIs text rv, ?_⟩
    rcases checkInput_score { s with inputValue := text } text rv with ⟨hf, hs⟩ | ⟨hf, hs⟩
    · rw [hf, if_pos rfl] at *
      show (checkInput { s with inputValue := text } text rv).1.score = 10 * (n + 1)
      rw [hs]
      show s.score + 10 = 10 * (n + 1)
      omega
    · rw [hf]
      show (checkInput { s with inputValue := text } text rv).1.score = 10 * (if false = true then n + 1 else n)
      rw [hs]
      simp
      exact ih.2
  | enterKey s n rv _ hgo ih =>
    refine ⟨inv_checkInput ih.1 s.inputValue rv, ?_⟩
    rcases checkInput_score s s.inputValue rv with ⟨hf, hs⟩ | ⟨hf, hs⟩
    · rw [hf]
      show (checkInput s s.inputValue rv).1.score = 10 * (if true = true then n + 1 else n)
      rw [hs]
      simp
      omega
    · rw [hf]
      show (checkInput s s.inputValue rv).1.score = 10 * (if false = true then n + 1 else n)
      rw [hs]
      simp
      exact ih.2

/-! ### Further helper lemmas feeding the claim theorems -/

theorem level_recompute {level score : Nat} (h : level = score / 100 + 1) :
    (if (score + 10) / 100 + 1 > level then (score + 10) / 100 + 1 else level) =
      (score + 10) / 100 + 1 := by
  by_cases hgt : (score + 10) / 100 + 1 > level
  · rw [if_pos hgt]
  · rw [if_neg hgt]
    have hle : level ≤ (score + 10) / 100 + 1 := by
      rw [h]
      exact Nat.succ_le_succ (Nat.div_le_div_right (Nat.le_add_right _ _))
    omega

/-- Effect of `spawnWord` on the on-screen list: either nothing is spawned, or
exactly one word built from a pool entry whose source text is not already on
screen is appended. -/
theorem spawnWord_words_spec (st : GameState) (width : ℚ) (pick : Nat) (xr jr newId : ℚ) :
    (spawnWord st width pick xr jr newId).words = st.words
    ∨ ∃ v : Vocabulary,
        (spawnWord st width pick xr jr newId).words = st.words ++
          [{ id := newId, textFr := v.fr, textTr := v.tr,
             x := xr * (width - 150) + 20, y := -50,
             speed := 3 / 20 + (st.score : ℚ) / 2000 + jr * (1 / 5),
             color := if st.userVocab.any (fun u => u.fr == v.fr)
               then str "#ffffff" else str "#fbbf24",
             isNew := !(st.userVocab.any (fun u => u.fr == v.fr)),
             originalVocab := v }]
        ∧ (∀ u ∈ st.words, u.textFr ≠ v.fr) := by
  unfold spawnWord
  simp only []
  by_cases h1 : (st.vocabList.filter (fun v =>
      !(st.words.any (fun w => w.textFr == v.fr)) && !(st.recentHistory.contains v.fr))).isEmpty
  · rw [if_pos h1]
    split
    · left; rfl
    · rename_i v hg
      right
      refine ⟨v, rfl, ?_⟩
      have hv := List.get?_mem hg
      have hp := (List.mem_filter.mp hv).2
      have hany : st.words.any (fun w => w.textFr == v.fr) = false := by
        simpa using hp
      exact fresh_of_any_false hany
  · rw [if_neg h1]
    split
    · left; rfl
    · rename_i v hg
      right
      refine ⟨v, rfl, ?_⟩
      have hv := List.get?_mem hg
      have hp := (List.mem_filter.mp hv).2
      have hany : st.words.any (fun w => w.textFr == v.fr) = false := by
        have h2 := (Bool.and_eq_true _ _).mp hp
        simpa using h2.1
      exact fresh_of_any_false hany

theorem gameLoopFrame_of_not_playing {st : GameState} (h : st.isPlaying = false)
    (now width height : ℚ) (pick : Nat) (xr jr newId : ℚ) :
    gameLoopFrame st now width height pick xr jr newId = st := by
  unfold gameLoopFrame
  rw [if_pos h]

theorem gameLoopFrame_lives_le (st : GameState) (now width height : ℚ) (pick : Nat)
    (xr jr newId : ℚ) :
    (gameLoopFrame st now width height pick xr jr newId).lives ≤ st.lives := by
  unfold gameLoopFrame
  simp only []
  have hu := (spawnWord_unchanged st width pick xr jr newId).1
  split_ifs <;> (try simp only []) <;> omega

theorem checkInput_lives (st : GameState) (input : List Nat) (rv : List (ℚ × ℚ)) :
    (checkInput st input rv).1.lives = st.lives := by
  cases hfr : findRemove (matchPred input) st.words with
  | none => rw [checkInput_of_none hfr]
  | some pr =>
    obtain ⟨w, rest⟩ := pr
    rw [checkInput_of_some hfr]

/-! ### Concrete states used by witnesses and counterexamples -/

/-- An on-screen word ("chat" / "kedi") used by concrete witnesses. -/
def wKedi : FallingWord :=
  { id := 1, textFr := str "chat", textTr := str "kedi", x := 100, y := 0, speed := 1,
    color := str "#ffffff", isNew := false,
    originalVocab := ⟨str "chat", str "kedi", str "noun", str ""⟩ }

/-- A session state with a single on-screen word, used by concrete witnesses. -/
def wState : GameState := { initState [] with words := [wKedi] }

/-! ### The claims -/

/-- C3: the normalization function is idempotent, `normalize "Café"` equals
`normalize "cafe"`, and two strings match exactly when their normalized forms
are identical. -/
theorem claim_C3_normalization :
    (∀ s : List Nat, normalize (normalize s) = normalize s)
    ∧ normalize (str "Café") = normalize (str "cafe")
    ∧ (∀ a b : List Nat, textMatches a b = true ↔ normalize a = normalize b) := by
  refine ⟨normalize_idem, by decide, ?_⟩
  intro a b
  unfold textMatches
  exact beq_iff_eq

/-- C9: an input that matches no live word's normalized target text leaves the
whole session state unchanged except that the input field holds the typed
text. -/
theorem claim_C9_no_match_no_change (st : GameState) (text : List Nat)
    (rv : List (ℚ × ℚ)) (h : ∀ w ∈ st.words, textMatches w.textTr text = false) :
    handleInputChange st text rv = { st with inputValue := text } := by
  unfold handleInputChange
  have hnone : findRemove (matchPred text)
      ({ st with inputValue := text } : GameState).words = none :=
    findRemove_eq_none.mpr (fun w hw => h w hw)
  rw [checkInput_of_none hnone]

theorem claim_C9_witness :
    handleInputChange wState (str "xyz") [] = { wState with inputValue := str "xyz" } :=
  claim_C9_no_match_no_change wState (str "xyz") [] (by decide)

/-- C1: `checkInput` runs on every keystroke via the change handler; on a match
it removes exactly the first live word whose normalized target text equals the
normalized input, adds exactly 10 to the score, recomputes the level as
`floor(score / 100) + 1`, and clears the input field. -/
theorem claim_C1_match_semantics (st : GameState) (input : List Nat) (rv : List (ℚ × ℚ)) :
    handleInputChange st input rv = (checkInput { st with inputValue := input } input rv).1
    ∧ (st.level = st.score / 100 + 1 →
        ∀ w rest, findRemove (matchPred input) st.words = some (w, rest) →
          ∃ l1 l2,
            st.words = l1 ++ w :: l2
            ∧ (∀ u ∈ l1, textMatches u.textTr input = false)
            ∧ textMatches w.textTr input = true
            ∧ (checkInput st input rv).1.words = l1 ++ l2
            ∧ st.words.length = (checkInput st input rv).1.words.length + 1
            ∧ (checkInput st input rv).1.score = st.score + 10
            ∧ (checkInput st input rv).1.level = (checkInput st input rv).1.score / 100 + 1
            ∧ (checkInput st input rv).1.inputValue = []) := by
  constructor
  · rfl
  · intro hlvl w rest hfr
    obtain ⟨l1, l2, h1, h2, h3, h4⟩ := findRemove_eq_some hfr
    rw [checkInput_of_some hfr]
    refine ⟨l1, l2, h1, h3, h4, h2, ?_, rfl, ?_, rfl⟩
    · rw [h1, h2]
      simp only [List.length_append, List.length_cons]
      omega
    · exact level_recompute hlvl

theorem claim_C1_witness :
    (checkInput wState (str "kedi") []).1.score = 10
    ∧ (checkInput wState (str "kedi") []).1.inputValue = []
    ∧ (checkInput wState (str "kedi") []).1.words = [] := by
  obtain ⟨l1, l2, h1, _, _, h4, _, h6, _, h8⟩ :=
    (claim_C1_match_semantics wState (str "kedi") []).2 (by decide) wKedi [] (by decide)
  have hl1 : l1 = [] ∧ l2 = [] := by
    have : wState.words = [wKedi] := rfl
    rw [this] at h1
    cases l1 with
    | nil => simpa using h1.symm
    | cons a as =>
      exfalso
      have hlen := congrArg List.length h1
      simp only [List.length_append, List.length_cons, List.length_nil] at hlen
      omega
  refine ⟨h6, h8, ?_⟩
  rw [h4, hl1.1, hl1.2]
  rfl

/-- C2: lives start at 3 and never increase under any event; a reachable state
is in game over exactly when its life count has reached 0; and once the session
is no longer playing (in particular in every reachable game-over state) a frame
changes nothing — no spawns, no position updates. -/
theorem claim_C2_lives_monotone_terminal :
    (∀ v : List Vocabulary, (initState v).lives = 3)
    ∧ (∀ (s : GameState) (now width height : ℚ) (pick : Nat) (xr jr newId : ℚ),
        (gameLoopFrame s now width height pick xr jr newId).lives ≤ s.lives)
    ∧ (∀ (s : GameState) (text : List Nat) (rv : List (ℚ × ℚ)),
        (handleInputChange s text rv).lives = s.lives)
    ∧ (∀ (s : GameState) (rv : List (ℚ × ℚ)), (handleEnterKey s rv).lives = s.lives)
    ∧ (∀ (v : List Vocabulary) (s : GameState), Reachable v s →
        ((s.gameOver = true) ↔ s.lives ≤ 0))
    ∧ (∀ (s : GameState), s.isPlaying = false →
        ∀ (now width height : ℚ) (pick : Nat) (xr jr newId : ℚ),
          gameLoopFrame s now width height pick xr jr newId = s)
    ∧ (∀ (v : List Vocabulary) (s : GameState), Reachable v s → s.gameOver = true →
        ∀ (now width height : ℚ) (pick : Nat) (xr jr newId : ℚ),
          gameLoopFrame s now width height pick xr jr newId = s) := by
  refine ⟨fun _ => rfl, gameLoopFrame_lives_le, ?_, ?_, ?_, ?_, ?_⟩
  · intro s text rv
    exact checkInput_lives { s with inputValue := text } text rv
  · intro s rv
    exact checkInput_lives s s.inputValue rv
  · rintro v s ⟨n, h⟩
    exact (reach_inv h).1.gameOverIff
  · intro s h now width height pick xr jr newId
    exact gameLoopFrame_of_not_playing h now width height pick xr jr newId
  · rintro v s ⟨n, h⟩ hgo now width height pick xr jr newId
    have hI := (reach_inv h).1
    have hpl : s.isPlaying = false := by
      rw [hI.playingEq, hgo]
      rfl
    exact gameLoopFrame_of_not_playing hpl now width height pick xr jr newId

theorem claim_C2_witness :
    ((initState ([] : List Vocabulary)).gameOver = true
      ↔ (initState ([] : List Vocabulary)).lives ≤ 0)
    ∧ (handleInputChange (initState []) (str "a") []).lives = (initState []).lives :=
  ⟨claim_C2_lives_monotone_terminal.2.2.2.2.1 [] (initState []) ⟨0, ReachTrace.init⟩,
    claim_C2_lives_monotone_terminal.2.2.1 (initState []) (str "a") []⟩

/-- C5: on every match the spawn interval is recomputed as
`max(800, 3000 - newScore * 1.5)`; this value always lies in `[800, 3000]` and
is non-increasing in the score, and every reachable state's spawn interval lies
in `[800, 3000]`. -/
theorem claim_C5_spawn_interval :
    (∀ (st : GameState) (input : List Nat) (rv : List (ℚ × ℚ)) (w : FallingWord)
        (rest : List FallingWord),
        findRemove (matchPred input) st.words = some (w, rest) →
        (checkInput st input rv).1.spawnRate = spawnRateFor (st.score + 10)
        ∧ (checkInput st input rv).1.score = st.score + 10)
    ∧ (∀ score : Nat, (800 : ℚ) ≤ spawnRateFor score ∧ spawnRateFor score ≤ 3000)
    ∧ (∀ s1 s2 : Nat, s1 ≤ s2 → spawnRateFor s2 ≤ spawnRateFor s1)
    ∧ (∀ (v : List Vocabulary) (s : GameState), Reachable v s →
        (800 : ℚ) ≤ s.spawnRate ∧ s.spawnRate ≤ 3000) := by
  refine ⟨?_, spawnRateFor_bounds, fun s1 s2 h => spawnRateFor_antitone h, ?_⟩
  · intro st input rv w rest hfr
    rw [checkInput_of_some hfr]
    exact ⟨rfl, rfl⟩
  · rintro v s ⟨n, h⟩
    exact ⟨(reach_inv h).1.rateLo, (reach_inv h).1.rateHi⟩

theorem claim_C5_witness :
    (checkInput wState (str "kedi") []).1.spawnRate = spawnRateFor 10
    ∧ (800 : ℚ) ≤ (initState ([] : List Vocabulary)).spawnRate :=
  ⟨(claim_C5_spawn_interval.1 wState (str "kedi") [] wKedi [] (by decide)).1,
    (claim_C5_spawn_interval.2.2.2 [] (initState []) ⟨0, ReachTrace.init⟩).1⟩

/-- C6: every spawn excludes pool entries whose source text is already on
screen, so in every reachable state no two live words share a source text. -/
theorem claim_C6_unique_source_text :
    (∀ (v : List Vocabulary) (s : GameState), Reachable v s →
        s.words.Pairwise (fun a b => a.textFr ≠ b.textFr))
    ∧ (∀ (st : GameState) (width : ℚ) (pick : Nat) (xr jr newId : ℚ),
        (spawnWord st width pick xr jr newId).words = st.words
        ∨ ∃ w', (spawnWord st width pick xr jr newId).words = st.words ++ [w']
            ∧ ∀ u ∈ st.words, u.textFr ≠ w'.textFr) := by
  constructor
  · rintro v s ⟨n, h⟩
    exact (reach_inv h).1.wordsNodup
  · intro st width pick xr jr newId
    rcases spawnWord_words_spec st width pick xr jr newId with h | ⟨v, hw, hfresh⟩
    · exact Or.inl h
    · exact Or.inr ⟨_, hw, hfresh⟩

theorem claim_C6_witness :
    (gameLoopFrame (initState []) 4000 800 600 1 (1 / 10) 0 1).words.Pairwise
      (fun a b => a.textFr ≠ b.textFr) :=
  claim_C6_unique_source_text.1 [] _
    ⟨0, ReachTrace.frame _ 0 4000 800 600 1 (1 / 10) 0 1 ReachTrace.init⟩

/-- C8: when filtering against both the on-screen exclusion and the recent
history yields no candidate, the history is cleared and filtering is retried
against the on-screen exclusion alone; if the retry is also empty, the spawn
cycle is skipped with no word spawned (and no error — `spawnWord` is total),
otherwise one word is spawned from the retried candidate list. -/
theorem claim_C8_spawn_starvation (st : GameState) (width : ℚ) (pick : Nat)
    (xr jr newId : ℚ)
    (h1 : st.vocabList.filter (fun v =>
      !(st.words.any (fun w => w.textFr == v.fr)) && !(st.recentHistory.contains v.fr)) = []) :
    ((st.vocabList.filter (fun v => !(st.words.any (fun w => w.textFr == v.fr)))) = [] →
        spawnWord st width pick xr jr newId = { st with recentHistory := ([] : List (List Nat)) })
    ∧ ((st.vocabList.filter (fun v => !(st.words.any (fun w => w.textFr == v.fr)))) ≠ [] →
        ∃ v : Vocabulary,
          (st.vocabList.filter (fun v =>
            !(st.words.any (fun w => w.textFr == v.fr)))).get?
              (pick % (st.vocabList.filter (fun v =>
                !(st.words.any (fun w => w.textFr == v.fr)))).length) = some v
          ∧ (spawnWord st width pick xr jr newId).words.length = st.words.length + 1
          ∧ (spawnWord st width pick xr jr newId).recentHistory = [v.fr]) := by
  have hempty : (st.vocabList.filter (fun v =>
      !(st.words.any (fun w => w.textFr == v.fr)) &&
        !(st.recentHistory.contains v.fr))).isEmpty = true := by
    rw [h1]; rfl
  constructor
  · intro h2
    unfold spawnWord
    simp only []
    rw [if_pos hempty]
    have hg : (st.vocabList.filter (fun v =>
        !(st.words.any (fun w => w.textFr == v.fr)))).get? (pick %
          (st.vocabList.filter (fun v =>
            !(st.words.any (fun w => w.textFr == v.fr)))).length) = none := by
      rw [h2]
      rfl
    split
    · rfl
    · rename_i v hg2
      rw [hg] at hg2
      cases hg2
  · intro h2
    unfold spawnWord
    simp only []
    rw [if_pos hempty]
    have hlen : 0 < (st.vocabList.filter (fun v =>
        !(st.words.any (fun w => w.textFr == v.fr)))).length :=
      List.length_pos.mpr h2
    have hlt : pick % (st.vocabList.filter (fun v =>
        !(st.words.any (fun w => w.textFr == v.fr)))).length <
        (st.vocabList.filter (fun v =>
          !(st.words.any (fun w => w.textFr == v.fr)))).length :=
      Nat.mod_lt _ hlen
    split
    · rename_i hg
      rw [List.get?_eq_none] at hg
      omega
    · rename_i v hg
      refine ⟨v, hg, ?_, ?_⟩
      · show (st.words ++ [_]).length = st.words.length + 1
        simp
      · show (if ([] ++ [v.fr] : List (List Nat)).length > 20
            then ([] ++ [v.fr] : List (List Nat)).drop 1 else [] ++ [v.fr]) = [v.fr]
        simp

/-- A saturated state: the only pool entry is already on screen, so both
filtering passes are empty and a spawn attempt is skipped. -/
def satState : GameState :=
  { initState [] with
      vocabList := [⟨str "chat", str "kedi", str "noun", str ""⟩],
      words := [wKedi] }

theorem claim_C8_witness :
    spawnWord satState 800 0 0 0 1 = { satState with recentHistory := ([] : List (List Nat)) } :=
  (claim_C8_spawn_starvation satState 800 0 0 0 1 (by decide)).1 (by decide)

/-- C10: in every reachable state the score is ten times the number of
successful matches so far — in particular a non-negative multiple of 10 — and
the XP reported on game-over dismissal is exactly that match count. -/
theorem claim_C10_score_counts_matches (v : List Vocabulary) (s : GameState) (n : Nat)
    (h : ReachTrace v s n) :
    s.score = 10 * n ∧ s.score % 10 = 0
    ∧ handleGameOverExit s =
        [CallbackEvent.complete n s.sessionLearnedWords, CallbackEvent.exitGame] := by
  have h2 := (reach_inv h).2
  have h3 : s.score / 10 = n := by omega
  refine ⟨h2, by omega, ?_⟩
  unfold handleGameOverExit
  rw [h3]

theorem claim_C10_witness :
    (initState ([] : List Vocabulary)).score = 10 * 0
    ∧ (initState ([] : List Vocabulary)).score % 10 = 0
    ∧ handleGameOverExit (initState []) =
        [CallbackEvent.complete 0 (initState ([] : List Vocabulary)).sessionLearnedWords,
          CallbackEvent.exitGame] :=
  claim_C10_score_counts_matches [] (initState []) 0 ReachTrace.init

/-! ### C7: new-word classification and learned-list deduplication -/

/-- A caller vocabulary containing "chat", distinguishable from the fallback
entry by its `audio_tts` field. -/
def uvC7 : List Vocabulary := [⟨str "chat", str "kedi", str "noun", str "user"⟩]

/-- The fallback pool's own "chat" entry. -/
def fallbackChat : Vocabulary := ⟨str "chat", str "kedi", str "noun", str ""⟩

/-- Spawning with pick index 2 selects the fallback "chat" entry of the pool
`uvC7 ++ FALLBACK_VOCAB` (index 0 is the caller's "chat", index 1 "bonjour"). -/
def spawnC7 : GameState := spawnWord (initState uvC7) 800 2 0 0 1

/-- C7 counterexample: a word spawned from the fallback pool (its originating
vocabulary pair is a member of `FALLBACK_VOCAB` and of no entry of the
caller's list) is nevertheless classified as already known (`isNew = false`),
because the classification tests only whether the source text occurs in the
caller's list — refuting "new iff it originates from the fallback pool". -/
theorem claim_C7_counterexample :
    fallbackChat ∈ FALLBACK_VOCAB
    ∧ fallbackChat ∉ uvC7
    ∧ spawnC7.words.map (fun w => w.originalVocab) = [fallbackChat]
    ∧ spawnC7.words.map (fun w => w.isNew) = [false] :=
  ⟨by decide, by decide, by decide, by decide⟩

/-- C7 (amended): a spawned word is classified "new to the user" iff its
source text does not occur in the caller's vocabulary list; the session
learned list never holds two entries with the same source text in any
reachable state; and matching a "new" word records its source text in the
learned list — together: a matched new item appears there exactly once. -/
theorem claim_C7_new_word_classification :
    (∀ (st : GameState) (width : ℚ) (pick : Nat) (xr jr newId : ℚ)
        (w' : FallingWord),
        w' ∈ (spawnWord st width pick xr jr newId).words → w' ∉ st.words →
        w'.isNew = !(st.userVocab.any (fun u => u.fr == w'.textFr)))
    ∧ (∀ (v : List Vocabulary) (s : GameState), Reachable v s →
        s.sessionLearnedWords.Pairwise (fun a b => a.fr ≠ b.fr))
    ∧ (∀ (st : GameState) (input : List Nat) (rv : List (ℚ × ℚ)) (w : FallingWord)
        (rest : List FallingWord),
        findRemove (matchPred input) st.words = some (w, rest) →
        w.isNew = true →
        w.originalVocab.fr ∈
          ((checkInput st input rv).1.sessionLearnedWords.map (fun u => u.fr))) := by
  refine ⟨?_, ?_, ?_⟩
  · intro st width pick xr jr newId w' hmem hnot
    rcases spawnWord_words_spec st width pick xr jr newId with h | ⟨v, hw, _⟩
    · rw [h] at hmem
      exact absurd hmem hnot
    · rw [hw] at hmem
      rcases List.mem_append.mp hmem with h | h
      · exact absurd h hnot
      · rw [List.mem_singleton] at h
        subst h
        rfl
  · rintro v s ⟨n, h⟩
    exact (reach_inv h).1.learnedNodup
  · intro st input rv w rest hfr hnew
    rw [checkInput_of_some hfr]
    by_cases hany : st.sessionLearnedWords.any (fun v => v.fr == w.originalVocab.fr) = true
    · rw [if_neg (by simp [hnew, hany])]
      obtain ⟨u, hu, hbeq⟩ := List.any_eq_true.mp hany
      have hEq : u.fr = w.originalVocab.fr := by simpa using hbeq
      exact List.mem_map.mpr ⟨u, hu, hEq⟩
    · rw [if_pos (by simp [hnew]; simpa using hany)]
      simp

/-- A session state with one on-screen word flagged new, used as witness. -/
def wNewKedi : FallingWord :=
  { id := 1, textFr := str "chat", textTr := str "kedi", x := 100, y := 0, speed := 1,
    color := str "#fbbf24", isNew := true, originalVocab := fallbackChat }

/-- The witness session for matching a new word. -/
def wNewState : GameState := { initState [] with words := [wNewKedi] }

theorem claim_C7_witness :
    str "chat" ∈
      ((checkInput wNewState (str "kedi") []).1.sessionLearnedWords.map (fun u => u.fr)) :=
  claim_C7_new_word_classification.2.2 wNewState (str "kedi") [] wNewKedi []
    (by decide) (by decide)

/-! ### C4: what the two exit paths report -/

/-- C4 counterexample: at the (reachable) initial state the exit control
invokes only the exit callback, while game-over dismissal reports a completion
record first — the two exits are observably different and manual exit reports
nothing upward. -/
theorem claim_C4_counterexample :
    Reachable [] (initState [])
    ∧ exitButtonClick (initState []) = [CallbackEvent.exitGame]
    ∧ handleGameOverExit (initState []) =
        [CallbackEvent.complete ((initState ([] : List Vocabulary)).score / 10)
          (initState ([] : List Vocabulary)).sessionLearnedWords, CallbackEvent.exitGame]
    ∧ exitButtonClick (initState []) ≠ handleGameOverExit (initState []) :=
  ⟨⟨0, ReachTrace.init⟩, rfl, rfl, by decide⟩

/-- C4 (amended): only game-over dismissal reports
`{xpAwarded = floor(score / 10), sessionLearnedItems}` through the completion
callback before exiting; the exit control invokes the bare exit callback and
reports no result. -/
theorem claim_C4_exit_reporting (s : GameState) :
    handleGameOverExit s =
      [CallbackEvent.complete (s.score / 10) s.sessionLearnedWords, CallbackEvent.exitGame]
    ∧ exitButtonClick s = [CallbackEvent.exitGame] :=
  ⟨rfl, rfl⟩

end WordRain
